import Mathlib

/-!
Shallow embedding of `src/app.py` (GDG-TechSprint-2k26): a linear pandas
script that loads `generated_aqi_data.csv`, drops the `Date` and `City`
columns, computes the Pearson correlation matrix of the remaining columns
with `DataFrame.corr()`, and renders it as a seaborn heatmap.

Modelling conventions:
* A pandas `DataFrame` is a `Dataset`: an ordered list of columns, each a
  header name together with its cell values in row order.  A cell is
  `Option ℚ`; `none` models a missing value (`NaN`), `some q` a present
  numeric value (floats are idealised as exact rationals, so the
  spec's "within floating-point tolerance" becomes exact equality).
* `DataFrame.drop(columns=[...])` keeps its default `errors='raise'`
  (raise when any listed label is absent) and `inplace=False` (return a
  new frame, leave the receiver untouched): `dropCols` returns
  `Except PipeError Dataset`.
* `DataFrame.corr()` uses pandas' `nancorr` kernel: for each pair of
  columns it masks, independently per pair, the rows where both cells are
  present, computes the Pearson coefficient
  `sxy / sqrt (sxx * syy)` over those rows, and yields `NaN` when the
  divisor `sqrt (sxx * syy)` is zero (in particular for a constant or
  empty masked column).  `pearson` returns `Option ℝ`, `none` being `NaN`.
* The script's straight-line control flow (load, project, correlate,
  figure, heatmap, title, show) is `runScript`, which also records the
  matplotlib/seaborn calls it reaches as a trace of `Event`s, so that
  "no plotting call is executed" is expressible.
-/

namespace AqiHeatmap

/-- A tabular dataset (pandas `DataFrame`): columns in order, each column a
header name paired with its cell values in row order.  `none` is a missing
cell (`NaN`). -/
structure Dataset where
  cols : List (String × List (Option ℚ))
deriving DecidableEq

/-- The column labels of a dataset, in left-to-right header order. -/
def Dataset.names (d : Dataset) : List String :=
  d.cols.map Prod.fst

/-- Whether a column with the given label exists (`label in df.columns`). -/
def Dataset.hasCol (d : Dataset) (s : String) : Bool :=
  d.names.contains s

/-- The value list of column `i` (positionally); `[]` when out of range. -/
def Dataset.colVals (d : Dataset) (i : Nat) : List (Option ℚ) :=
  ((d.cols.get? i).map Prod.snd).getD []

/-- The errors the script can die with; none are caught anywhere. -/
inductive PipeError where
  | fileNotFound
  | missingColumn
deriving DecidableEq

/-- `df.drop(columns=labels)` with pandas defaults: if any listed label is
absent from the frame a `KeyError` is raised (`errors='raise'`); otherwise a
new frame is returned holding every column whose name is not listed, in
their original order with their value lists untouched (`inplace=False`). -/
def dropCols (d : Dataset) (labels : List String) : Except PipeError Dataset :=
  if labels.all (fun l => d.hasCol l) then
    .ok ⟨d.cols.filter (fun c => !(labels.contains c.1))⟩
  else
    .error .missingColumn

/-- The pairwise-complete mask of pandas `nancorr`: the rows where both
columns hold a present value, as value pairs in row order. -/
def validPairs (xs ys : List (Option ℚ)) : List (ℚ × ℚ) :=
  (List.zip xs ys).filterMap fun p =>
    match p with
    | (some a, some b) => some (a, b)
    | _ => none

/-- Arithmetic mean of a list of rationals (`0` for the empty list, matching
that all the sums below are then `0` as well). -/
def mean (l : List ℚ) : ℚ :=
  l.sum / l.length

/-- Sum of squared deviations from the mean (`ssqdmx` in pandas `nancorr`). -/
def ssq (l : List ℚ) : ℚ :=
  (l.map (fun x => (x - mean l) ^ 2)).sum

/-- `ssqdmx` of a masked column pair: squared deviations of the first
components. -/
def sxx (p : List (ℚ × ℚ)) : ℚ :=
  ssq (p.map Prod.fst)

/-- `ssqdmy` of a masked column pair: squared deviations of the second
components. -/
def syy (p : List (ℚ × ℚ)) : ℚ :=
  ssq (p.map Prod.snd)

/-- `covxy` of a masked column pair: sum of products of deviations. -/
def sxy (p : List (ℚ × ℚ)) : ℚ :=
  (p.map (fun q =>
    (q.1 - mean (p.map Prod.fst)) * (q.2 - mean (p.map Prod.snd)))).sum

/-- Pearson coefficient of two columns as computed by pandas `nancorr`
(with the default `min_periods=1`): over the pairwise-complete rows,
`covxy / sqrt (ssqdmx * ssqdmy)`, and `NaN` (here `none`) when the divisor
is zero, i.e. when either masked column has zero squared deviation. -/
noncomputable def pearson (xs ys : List (Option ℚ)) : Option ℝ :=
  if sxx (validPairs xs ys) = 0 ∨ syy (validPairs xs ys) = 0 then none
  else some ((sxy (validPairs xs ys) : ℝ) /
    Real.sqrt ((sxx (validPairs xs ys) : ℝ) * (syy (validPairs xs ys) : ℝ)))

/-- The correlation matrix of `df_numeric.corr()`, as its grid of cells:
row `i`, column `j` holds the Pearson coefficient of columns `i` and `j`. -/
noncomputable def corrMatrix (d : Dataset) : List (List (Option ℝ)) :=
  d.cols.map fun ci => d.cols.map fun cj => pearson ci.2 cj.2

/-- Cell `(i, j)` of a matrix, `none` when out of range. -/
def entry (m : List (List (Option ℝ))) (i j : Nat) : Option ℝ :=
  ((m.get? i).getD []).getD j none

/-- Squared-deviation mass (unnormalised variance) of a single column over
its present values: zero exactly when the column has zero variance. -/
def colDev (d : Dataset) (i : Nat) : ℚ :=
  ssq ((d.colVals i).filterMap id)

/-- The result of `df_numeric.corr()` as a labelled frame: pandas returns a
`DataFrame` whose index (row labels) and columns (column labels) are both
the columns of `df_numeric`, in their order. -/
structure LabeledMatrix where
  rowLabels : List String
  colLabels : List String
  cells : List (List (Option ℝ))

/-- `df_numeric.corr()` with its labels. -/
noncomputable def corrDF (d : Dataset) : LabeledMatrix :=
  ⟨d.names, d.names, corrMatrix d⟩

/-- The library calls with an observable effect that the script reaches, in
program order: `pd.read_csv`, `plt.figure`, `sns.heatmap`, `plt.title`,
`plt.show`. -/
inductive Event where
  | loadCsv
  | mkFigure
  | drawHeatmap
  | setTitle
  | showPlot
deriving DecidableEq

/-- The whole script, from `pd.read_csv(file_path)` to `plt.show()`.  The
input is the state of `generated_aqi_data.csv`: `none` when the file does
not exist (then `read_csv` raises `FileNotFoundError`), `some df` its parsed
contents.  Stages run in program order; an uncaught error stops the run.
The result is the trace of reached effectful calls together with either the
correlation matrix that got rendered or the error the process died with. -/
noncomputable def runScript (file : Option Dataset) :
    List Event × Except PipeError (List (List (Option ℝ))) :=
  match file with
  | none => ([], .error .fileNotFound)
  | some df =>
    match dropCols df ["Date", "City"] with
    | .error e => ([.loadCsv], .error e)
    | .ok dfNumeric =>
      ([.loadCsv, .mkFigure, .drawHeatmap, .setTitle, .showPlot],
        .ok (corrMatrix dfNumeric))

/-- The script's variable environment around the projection line: `df` is
the only binding alive when `df_numeric = df.drop(columns=['Date','City'])`
runs. -/
structure Env where
  df : Dataset
deriving DecidableEq

/-- The projection statement: evaluate `df.drop(columns=['Date','City'])`
(which, with `inplace=False`, builds a new frame) and bind the result to the
fresh name `df_numeric`, returning the environment as the statement leaves
it together with the new binding. -/
def projectionStep (e : Env) : Except PipeError (Env × Dataset) :=
  (dropCols e.df ["Date", "City"]).map (fun d => (e, d))

/-! ### Helper lemmas about the statistics kernel -/

lemma sum_map_eq_sum_fin {α : Type} (p : List α) (F : α → ℚ) :
    (p.map F).sum = ∑ i : Fin p.length, F (p.get i) := by
  conv_lhs => rw [← List.ofFn_get p]
  rw [List.map_ofFn, List.sum_ofFn]
  rfl

lemma ssq_nonneg (l : List ℚ) : 0 ≤ ssq l := by
  apply List.sum_nonneg
  intro x hx
  obtain ⟨y, _, rfl⟩ := List.mem_map.1 hx
  positivity

/-- Cauchy–Schwarz for the deviation sums: `covxy² ≤ ssqdmx * ssqdmy`. -/
lemma sxy_sq_le (p : List (ℚ × ℚ)) : sxy p ^ 2 ≤ sxx p * syy p := by
  have hx : sxx p
      = ∑ i : Fin p.length, ((p.get i).1 - mean (p.map Prod.fst)) ^ 2 := by
    rw [sxx, ssq, List.map_map]
    exact sum_map_eq_sum_fin p _
  have hy : syy p
      = ∑ i : Fin p.length, ((p.get i).2 - mean (p.map Prod.snd)) ^ 2 := by
    rw [syy, ssq, List.map_map]
    exact sum_map_eq_sum_fin p _
  have hxy : sxy p
      = ∑ i : Fin p.length,
          ((p.get i).1 - mean (p.map Prod.fst))
            * ((p.get i).2 - mean (p.map Prod.snd)) := by
    rw [sxy]
    exact sum_map_eq_sum_fin p _
  rw [hx, hy, hxy]
  exact Finset.sum_mul_sq_le_sq_mul_sq Finset.univ _ _

lemma validPairs_swap (xs ys : List (Option ℚ)) :
    validPairs ys xs = (validPairs xs ys).map Prod.swap := by
  induction xs generalizing ys with
  | nil => cases ys <;> simp [validPairs]
  | cons x xs ih =>
    cases ys with
    | nil => simp [validPairs]
    | cons y ys =>
      cases x <;> cases y <;>
        simpa [validPairs, List.zip_cons_cons, List.filterMap_cons] using ih ys

lemma sxx_map_swap (p : List (ℚ × ℚ)) : sxx (p.map Prod.swap) = syy p := by
  simp [sxx, syy, ssq, List.map_map, Function.comp_def]

lemma syy_map_swap (p : List (ℚ × ℚ)) : syy (p.map Prod.swap) = sxx p := by
  simp [sxx, syy, ssq, List.map_map, Function.comp_def]

lemma sxy_map_swap (p : List (ℚ × ℚ)) : sxy (p.map Prod.swap) = sxy p := by
  simp only [sxy, List.map_map, Function.comp_def, Prod.fst_swap, Prod.snd_swap]
  congr 1
  apply List.map_congr_left
  intro q _
  ring

/-- The Pearson coefficient is symmetric in its two columns. -/
lemma pearson_comm (xs ys : List (Option ℚ)) : pearson xs ys = pearson ys xs := by
  unfold pearson
  rw [validPairs_swap xs ys, sxx_map_swap, syy_map_swap, sxy_map_swap]
  by_cases hx : sxx (validPairs xs ys) = 0 <;>
    by_cases hy : syy (validPairs xs ys) = 0 <;>
    simp [hx, hy, mul_comm]

lemma validPairs_self (v : List (Option ℚ)) :
    validPairs v v = (v.filterMap id).map (fun a => (a, a)) := by
  induction v with
  | nil => rfl
  | cons x v ih =>
    cases x <;>
      simpa [validPairs, List.zip_cons_cons, List.filterMap_cons] using ih

lemma sxx_diag (l : List ℚ) : sxx (l.map (fun a => (a, a))) = ssq l := by
  simp [sxx, ssq, List.map_map, Function.comp_def]

lemma syy_diag (l : List ℚ) : syy (l.map (fun a => (a, a))) = ssq l := by
  simp [syy, ssq, List.map_map, Function.comp_def]

lemma sxy_diag (l : List ℚ) : sxy (l.map (fun a => (a, a))) = ssq l := by
  simp only [sxy, ssq, List.map_map, Function.comp_def, List.map_id']
  congr 1
  apply List.map_congr_left
  intro q _
  ring

/-- A self-pairing with nonzero squared deviation has coefficient `1`:
the diagonal of the matrix for a non-constant column. -/
lemma pearson_self (v : List (Option ℚ)) (h : sxx (validPairs v v) ≠ 0) :
    pearson v v = some 1 := by
  have hself := validPairs_self v
  have hx : sxx (validPairs v v) = ssq (v.filterMap id) := by
    rw [hself, sxx_diag]
  have hy : syy (validPairs v v) = ssq (v.filterMap id) := by
    rw [hself, syy_diag]
  have hxy : sxy (validPairs v v) = ssq (v.filterMap id) := by
    rw [hself, sxy_diag]
  have hpos : 0 < ssq (v.filterMap id) := by
    rcases lt_or_eq_of_le (ssq_nonneg (v.filterMap id)) with h1 | h1
    · exact h1
    · exact absurd (hx.trans h1.symm) h
  have hposR : (0 : ℝ) < (ssq (v.filterMap id) : ℝ) := by exact_mod_cast hpos
  rw [pearson, if_neg (by rw [hx, hy]; push_neg; exact ⟨hpos.ne', hpos.ne'⟩)]
  rw [hx, hy, hxy, Real.sqrt_mul_self hposR.le, div_self hposR.ne']

lemma mem_validPairs_left {xs ys : List (Option ℚ)} {q : ℚ × ℚ}
    (h : q ∈ validPairs xs ys) : some q.1 ∈ xs := by
  rw [validPairs, List.mem_filterMap] at h
  obtain ⟨⟨o₁, o₂⟩, hpr, he⟩ := h
  cases o₁ <;> cases o₂ <;> simp at he
  obtain ⟨rfl, -⟩ := he
  exact (List.of_mem_zip hpr).1

lemma mem_validPairs_right {xs ys : List (Option ℚ)} {q : ℚ × ℚ}
    (h : q ∈ validPairs xs ys) : some q.2 ∈ ys := by
  rw [validPairs, List.mem_filterMap] at h
  obtain ⟨⟨o₁, o₂⟩, hpr, he⟩ := h
  cases o₁ <;> cases o₂ <;> simp at he
  obtain ⟨-, rfl⟩ := he
  exact (List.of_mem_zip hpr).2

lemma ssq_of_const {l : List ℚ} {c : ℚ} (h : ∀ x ∈ l, x = c) : ssq l = 0 := by
  cases hl : l with
  | nil => rfl
  | cons a t =>
    have hsum : l.sum = l.length • c := List.sum_eq_card_nsmul l c h
    have hmean : mean l = c := by
      rw [mean, hsum, nsmul_eq_mul, hl]
      have : ((a :: t).length : ℚ) ≠ 0 := by
        simp [List.length_cons]
        positivity
      field_simp
    rw [← hl]
    apply List.sum_eq_zero
    intro x hx
    obtain ⟨y, hy, rfl⟩ := List.mem_map.1 hx
    rw [hmean, h y hy]
    ring

/-- A constant second column forces `ssqdmy = 0` on every pairwise mask. -/
lemma syy_of_const {xs ys : List (Option ℚ)} {c : ℚ}
    (hc : ∀ o ∈ ys, o = some c) : syy (validPairs xs ys) = 0 := by
  apply ssq_of_const
  intro x hx
  obtain ⟨q, hq, rfl⟩ := List.mem_map.1 hx
  exact Option.some.inj (hc _ (mem_validPairs_right hq))

/-- A constant column yields `NaN` against any column (constant on the right). -/
lemma pearson_const_right {xs ys : List (Option ℚ)} {c : ℚ}
    (hc : ∀ o ∈ ys, o = some c) : pearson xs ys = none := by
  rw [pearson, if_pos (Or.inr (syy_of_const hc))]

/-- A constant column yields `NaN` against any column (constant on the left). -/
lemma pearson_const_left {xs ys : List (Option ℚ)} {c : ℚ}
    (hc : ∀ o ∈ xs, o = some c) : pearson xs ys = none := by
  rw [pearson_comm]
  exact pearson_const_right hc

/-- Whenever the coefficient is a number it lies in `[-1, 1]`. -/
lemma pearson_mem_Icc {xs ys : List (Option ℚ)} {r : ℝ}
    (h : pearson xs ys = some r) : -1 ≤ r ∧ r ≤ 1 := by
  rw [pearson] at h
  by_cases hz : sxx (validPairs xs ys) = 0 ∨ syy (validPairs xs ys) = 0
  · rw [if_pos hz] at h
    exact absurd h (by simp)
  · rw [if_neg hz] at h
    push_neg at hz
    set p := validPairs xs ys with hp
    have hxpos : 0 < sxx p :=
      lt_of_le_of_ne (ssq_nonneg _) (Ne.symm hz.1)
    have hypos : 0 < syy p :=
      lt_of_le_of_ne (ssq_nonneg _) (Ne.symm hz.2)
    have hprod : (0 : ℝ) < (sxx p : ℝ) * (syy p : ℝ) := by
      have := mul_pos hxpos hypos
      exact_mod_cast this
    have hsq : (sxy p : ℝ) ^ 2 ≤ (sxx p : ℝ) * (syy p : ℝ) := by
      exact_mod_cast sxy_sq_le p
    have habs : |(sxy p : ℝ)| ≤ Real.sqrt ((sxx p : ℝ) * (syy p : ℝ)) := by
      calc |(sxy p : ℝ)| = Real.sqrt ((sxy p : ℝ) ^ 2) :=
            (Real.sqrt_sq_eq_abs _).symm
        _ ≤ _ := Real.sqrt_le_sqrt hsq
    have hdpos : 0 < Real.sqrt ((sxx p : ℝ) * (syy p : ℝ)) :=
      Real.sqrt_pos.2 hprod
    have hr : r = (sxy p : ℝ) / Real.sqrt ((sxx p : ℝ) * (syy p : ℝ)) :=
      (Option.some.inj h).symm
    have : |r| ≤ 1 := by
      rw [hr, abs_div, abs_of_pos hdpos]
      exact (div_le_one hdpos).2 habs
    exact abs_le.1 this

lemma validPairs_map_some (u : List ℚ) (f : ℚ → ℚ) :
    validPairs (u.map some) (u.map (fun x => some (f x)))
      = u.map (fun x => (x, f x)) := by
  induction u with
  | nil => rfl
  | cons a u ih =>
    simpa [validPairs, List.zip_cons_cons, List.filterMap_cons] using ih

lemma sum_map_affine (u : List ℚ) (a b : ℚ) :
    (u.map (fun x => a * x + b)).sum = a * u.sum + u.length * b := by
  induction u with
  | nil => simp
  | cons x u ih =>
    simp only [List.map_cons, List.sum_cons, ih, List.length_cons]
    push_cast
    ring

lemma mean_affine (u : List ℚ) (hu : u ≠ []) (a b : ℚ) :
    mean (u.map (fun x => a * x + b)) = a * mean u + b := by
  have hlen : ((u.length : ℚ)) ≠ 0 := by
    have : 0 < u.length := List.length_pos.2 hu
    positivity
  rw [mean, mean, List.length_map, sum_map_affine]
  field_simp
  ring

lemma ssq_affine (u : List ℚ) (a b : ℚ) :
    ssq (u.map (fun x => a * x + b)) = a ^ 2 * ssq u := by
  rcases eq_or_ne u [] with rfl | hu
  · simp [ssq]
  · rw [ssq, List.map_map, mean_affine u hu a b]
    have : (u.map ((fun x => (x - (a * mean u + b)) ^ 2)
          ∘ fun x => a * x + b))
        = u.map (fun x => a * (a * (x - mean u) ^ 2)) := by
      apply List.map_congr_left
      intro x _
      simp only [Function.comp_def]
      ring
    rw [this, List.sum_map_mul_left, List.sum_map_mul_left, ssq]
    ring

/-- Pearson coefficient of a column against a positive affine image of
itself: `1` as soon as the column is not constant. -/
lemma pearson_linear (u : List ℚ) (a b : ℚ) (ha : 0 < a) (hvar : ssq u ≠ 0) :
    pearson (u.map some) (u.map (fun x => some (a * x + b))) = some 1 := by
  have hvp := validPairs_map_some u (fun x => a * x + b)
  have hu : u ≠ [] := by
    rintro rfl
    exact hvar rfl
  have hfst : (u.map (fun x => (x, a * x + b))).map Prod.fst = u := by
    rw [List.map_map]
    simp [Function.comp_def]
  have hsnd : (u.map (fun x => (x, a * x + b))).map Prod.snd
      = u.map (fun x => a * x + b) := by
    rw [List.map_map]
    simp [Function.comp_def]
  have hxx : sxx (validPairs (u.map some) (u.map (fun x => some (a * x + b))))
      = ssq u := by
    rw [hvp, sxx, hfst]
  have hyy : syy (validPairs (u.map some) (u.map (fun x => some (a * x + b))))
      = a ^ 2 * ssq u := by
    rw [hvp, syy, hsnd, ssq_affine]
  have hxy : sxy (validPairs (u.map some) (u.map (fun x => some (a * x + b))))
      = a * ssq u := by
    rw [hvp, sxy, hfst, hsnd, mean_affine u hu a b, List.map_map]
    have : (u.map ((fun q : ℚ × ℚ =>
          (q.1 - mean u) * (q.2 - (a * mean u + b)))
            ∘ fun x => (x, a * x + b)))
        = u.map (fun x => a * (x - mean u) ^ 2) := by
      apply List.map_congr_left
      intro x _
      simp only [Function.comp_def]
      ring
    rw [this, List.sum_map_mul_left, ssq]
  have hpos : 0 < ssq u := lt_of_le_of_ne (ssq_nonneg u) (Ne.symm hvar)
  have hcond : ¬(sxx (validPairs (u.map some)
        (u.map (fun x => some (a * x + b)))) = 0
      ∨ syy (validPairs (u.map some)
        (u.map (fun x => some (a * x + b)))) = 0) := by
    rw [hxx, hyy]
    push_neg
    exact ⟨hpos.ne', by positivity⟩
  rw [pearson, if_neg hcond, hxx, hyy, hxy]
  have hsq : ((ssq u : ℝ)) * ((a ^ 2 * ssq u : ℚ) : ℝ)
      = ((a * ssq u : ℚ) : ℝ) ^ 2 := by
    push_cast
    ring
  have hps : (0 : ℝ) ≤ ((a * ssq u : ℚ) : ℝ) := by
    have : (0 : ℚ) ≤ a * ssq u := by positivity
    exact_mod_cast this
  have hne : ((a * ssq u : ℚ) : ℝ) ≠ 0 := by
    have : (0 : ℚ) < a * ssq u := by positivity
    have h' : (0 : ℝ) < ((a * ssq u : ℚ) : ℝ) := by exact_mod_cast this
    exact h'.ne'
  rw [hsq, Real.sqrt_sq hps, div_self hne]

/-! ### Helper lemmas about matrix cells and column selection -/

lemma pearson_eq_of_validPairs_eq {xs ys xs' ys' : List (Option ℚ)}
    (h : validPairs xs ys = validPairs xs' ys') :
    pearson xs ys = pearson xs' ys' := by
  rw [pearson, pearson, h]

lemma validPairs_restrict (p : List (ℚ × ℚ)) :
    validPairs (p.map (fun q => some q.1)) (p.map (fun q => some q.2)) = p := by
  induction p with
  | nil => rfl
  | cons q p ih =>
    simpa [validPairs, List.zip_cons_cons, List.filterMap_cons] using ih

lemma entry_corrMatrix (d : Dataset) (i j : Nat)
    (hi : i < d.cols.length) (hj : j < d.cols.length) :
    entry (corrMatrix d) i j = pearson (d.colVals i) (d.colVals j) := by
  rw [entry, corrMatrix, List.get?_eq_getElem?, List.getElem?_map,
    List.getElem?_eq_getElem hi]
  simp only [Option.map_some', Option.getD_some]
  rw [List.getD_eq_getElem?_getD, List.getElem?_map, List.getElem?_eq_getElem hj]
  rw [Dataset.colVals, Dataset.colVals, List.get?_eq_getElem?,
    List.get?_eq_getElem?, List.getElem?_eq_getElem hi,
    List.getElem?_eq_getElem hj]
  simp

lemma entry_corrMatrix_of_ge {d : Dataset} {i j : Nat}
    (h : d.cols.length ≤ i ∨ d.cols.length ≤ j) :
    entry (corrMatrix d) i j = none := by
  rcases lt_or_ge i d.cols.length with hi | hi
  · have hj : d.cols.length ≤ j := h.resolve_left (by omega)
    rw [entry, corrMatrix, List.get?_eq_getElem?, List.getElem?_map,
      List.getElem?_eq_getElem hi]
    simp only [Option.map_some', Option.getD_some]
    rw [List.getD_eq_getElem?_getD, List.getElem?_map]
    have hnone : d.cols[j]? = none := List.getElem?_eq_none hj
    simp [hnone]
  · rw [entry, corrMatrix, List.get?_eq_getElem?, List.getElem?_map,
      List.getElem?_eq_none hi]
    rfl

lemma entry_corrMatrix_comm (d : Dataset) (i j : Nat) :
    entry (corrMatrix d) i j = entry (corrMatrix d) j i := by
  rcases lt_or_ge i d.cols.length with hi | hi <;>
    rcases lt_or_ge j d.cols.length with hj | hj
  · rw [entry_corrMatrix d i j hi hj, entry_corrMatrix d j i hj hi, pearson_comm]
  · rw [entry_corrMatrix_of_ge (Or.inr hj), entry_corrMatrix_of_ge (Or.inl hj)]
  · rw [entry_corrMatrix_of_ge (Or.inl hi), entry_corrMatrix_of_ge (Or.inr hi)]
  · rw [entry_corrMatrix_of_ge (Or.inl hi), entry_corrMatrix_of_ge (Or.inl hj)]

lemma countP_dateCity (l : List String) :
    l.countP (fun s => (["Date", "City"] : List String).contains s)
      = l.count "Date" + l.count "City" := by
  induction l with
  | nil => rfl
  | cons x l ih =>
    rw [List.countP_cons, List.count_cons, List.count_cons, ih]
    by_cases h1 : x = "Date" <;> by_cases h2 : x = "City"
    · subst h1
      exact absurd h2 (by decide)
    · subst h1
      simp [List.contains_cons]
      omega
    · subst h2
      simp [List.contains_cons]
      omega
    · simp [List.contains_cons, h1, h2]

lemma length_filter_dateCity (l : List String) (hD : "Date" ∈ l)
    (hC : "City" ∈ l) (hnd : l.Nodup) :
    (l.filter (fun s => !((["Date", "City"] : List String).contains s))).length
      = l.length - 2 := by
  have hsplit : l.length
      = l.countP (fun s => (["Date", "City"] : List String).contains s)
        + l.countP (fun s => !((["Date", "City"] : List String).contains s)) := by
    simpa using
      List.length_eq_countP_add_countP
        (fun s => (["Date", "City"] : List String).contains s) l
  have hcnt := countP_dateCity l
  have h1 : l.count "Date" = 1 := List.count_eq_one_of_mem hnd hD
  have h2 : l.count "City" = 1 := List.count_eq_one_of_mem hnd hC
  have hfl : (l.filter
        (fun s => !((["Date", "City"] : List String).contains s))).length
      = l.countP (fun s => !((["Date", "City"] : List String).contains s)) :=
    (List.countP_eq_length_filter _ _).symm
  omega

lemma map_fst_filter (l : List (String × List (Option ℚ))) (p : String → Bool) :
    (l.filter (fun c => p c.1)).map Prod.fst = (l.map Prod.fst).filter p := by
  induction l with
  | nil => rfl
  | cons c l ih =>
    by_cases h : p c.1 <;> simp [List.filter_cons, h, ih]

lemma dropCols_ok (d : Dataset) (hD : "Date" ∈ d.names) (hC : "City" ∈ d.names) :
    dropCols d ["Date", "City"]
      = .ok ⟨d.cols.filter
          (fun c => !((["Date", "City"] : List String).contains c.1))⟩ := by
  rw [dropCols, if_pos]
  simp only [List.all_cons, List.all_nil, Bool.and_true, Bool.and_eq_true,
    Dataset.hasCol]
  exact ⟨List.elem_eq_true_of_mem hD, List.elem_eq_true_of_mem hC⟩

lemma dropCols_err (d : Dataset) (h : "Date" ∉ d.names ∨ "City" ∉ d.names) :
    dropCols d ["Date", "City"] = .error .missingColumn := by
  rw [dropCols, if_neg]
  simp only [List.all_cons, List.all_nil, Bool.and_true, Bool.and_eq_true,
    Dataset.hasCol]
  rintro ⟨h1, h2⟩
  rcases h with h | h
  · exact h (List.mem_of_elem_eq_true h1)
  · exact h (List.mem_of_elem_eq_true h2)

/-! ### Claim theorems -/

/-- C3: for every dataset that contains columns named `Date` and `City`
(with the distinct headers `read_csv` guarantees), the projection
`df.drop(columns=['Date','City'])` succeeds and returns a table with exactly
all the other columns — its column count is the original count minus 2,
wherever `Date` and `City` sit — each kept column carrying its value list
unchanged (so row order and row count are preserved). -/
theorem c3_projector_drops_exactly_two (d d' : Dataset)
    (hD : "Date" ∈ d.names) (hC : "City" ∈ d.names) (hnd : d.names.Nodup)
    (hok : dropCols d ["Date", "City"] = .ok d') :
    d'.cols.length = d.cols.length - 2
    ∧ d'.names
      = d.names.filter (fun s => !((["Date", "City"] : List String).contains s))
    ∧ (∀ c, c ∈ d'.cols ↔ c ∈ d.cols ∧ c.1 ≠ "Date" ∧ c.1 ≠ "City")
    ∧ (∀ m, (∀ c ∈ d.cols, c.2.length = m) → ∀ c ∈ d'.cols, c.2.length = m) := by
  rw [dropCols_ok d hD hC] at hok
  have hd' : d' = ⟨d.cols.filter
      (fun c => !((["Date", "City"] : List String).contains c.1))⟩ :=
    (Except.ok.inj hok).symm
  subst hd'
  have hnames : (Dataset.names ⟨d.cols.filter
        (fun c => !((["Date", "City"] : List String).contains c.1))⟩)
      = d.names.filter
        (fun s => !((["Date", "City"] : List String).contains s)) := by
    rw [Dataset.names, Dataset.names]
    exact map_fst_filter d.cols
      (fun s => !((["Date", "City"] : List String).contains s))
  refine ⟨?_, hnames, ?_, ?_⟩
  · have h1 : (Dataset.names ⟨d.cols.filter
          (fun c => !((["Date", "City"] : List String).contains c.1))⟩).length
        = d.names.length - 2 := by
      rw [hnames]
      exact length_filter_dateCity d.names hD hC hnd
    simpa [Dataset.names] using h1
  · intro c
    rw [List.mem_filter]
    constructor
    · rintro ⟨hm, hc⟩
      refine ⟨hm, ?_, ?_⟩ <;> intro he <;> rw [he] at hc <;> simp at hc
    · rintro ⟨hm, h1, h2⟩
      refine ⟨hm, ?_⟩
      simp [List.contains_cons, h1, h2]
  · intro m hm c hc
    exact hm c (List.mem_of_mem_filter hc)

theorem c3_witness :
    "Date" ∈ (Dataset.names ⟨[("Date", [some 1]), ("AQI", [some 2]),
        ("City", [some 3])]⟩)
    ∧ "City" ∈ (Dataset.names ⟨[("Date", [some 1]), ("AQI", [some 2]),
        ("City", [some 3])]⟩)
    ∧ (Dataset.names ⟨[("Date", [some 1]), ("AQI", [some 2]),
        ("City", [some 3])]⟩).Nodup
    ∧ dropCols ⟨[("Date", [some 1]), ("AQI", [some 2]), ("City", [some 3])]⟩
        ["Date", "City"] = .ok ⟨[("AQI", [some 2])]⟩
    ∧ (⟨[("AQI", [some 2])]⟩ : Dataset).cols.length
        = (⟨[("Date", [some 1]), ("AQI", [some 2]),
            ("City", [some 3])]⟩ : Dataset).cols.length - 2 := by
  have h1 : "Date" ∈ (Dataset.names ⟨[("Date", [some 1]), ("AQI", [some 2]),
      ("City", [some 3])]⟩) := by simp [Dataset.names]
  have h2 : "City" ∈ (Dataset.names ⟨[("Date", [some 1]), ("AQI", [some 2]),
      ("City", [some 3])]⟩) := by simp [Dataset.names]
  have h3 : (Dataset.names ⟨[("Date", [some 1]), ("AQI", [some 2]),
      ("City", [some 3])]⟩).Nodup := by simp [Dataset.names]
  have h4 : dropCols ⟨[("Date", [some 1]), ("AQI", [some 2]),
      ("City", [some 3])]⟩ ["Date", "City"] = .ok ⟨[("AQI", [some 2])]⟩ := by
    rw [dropCols_ok _ h1 h2]
    simp [List.filter_cons, List.contains_cons]
  exact ⟨h1, h2, h3, h4,
    (c3_projector_drops_exactly_two _ _ h1 h2 h3 h4).1⟩

/-- C4: when `Date` or `City` is absent, the projection line raises
(`KeyError` from `drop` with `errors='raise'`); the run stops with an
uncaught error right after the load, and no plotting call is reached. -/
theorem c4_projector_missing_column_raises (d : Dataset)
    (h : "Date" ∉ d.names ∨ "City" ∉ d.names) :
    runScript (some d) = ([Event.loadCsv], .error .missingColumn) := by
  rw [runScript, dropCols_err d h]

theorem c4_witness :
    ("Date" ∉ (Dataset.names ⟨[("AQI", [some 1])]⟩)
      ∨ "City" ∉ (Dataset.names ⟨[("AQI", [some 1])]⟩))
    ∧ runScript (some ⟨[("AQI", [some 1])]⟩)
        = ([Event.loadCsv], .error .missingColumn) := by
  have h : "Date" ∉ (Dataset.names ⟨[("AQI", [some 1])]⟩)
      ∨ "City" ∉ (Dataset.names ⟨[("AQI", [some 1])]⟩) := by
    left
    simp [Dataset.names]
  exact ⟨h, c4_projector_missing_column_raises _ h⟩

/-- C5: the projection has no side effect on its input: the statement
`df_numeric = df.drop(columns=['Date','City'])` (with pandas' default
`inplace=False`) leaves the binding `df` exactly as it was — same columns,
including `Date` and `City`, same rows and values. -/
theorem c5_projection_no_side_effect (e e' : Env) (dn : Dataset)
    (h : projectionStep e = .ok (e', dn)) :
    e'.df = e.df
    ∧ e'.df.cols = e.df.cols
    ∧ (e.df.hasCol "Date" = true → e'.df.hasCol "Date" = true)
    ∧ (e.df.hasCol "City" = true → e'.df.hasCol "City" = true) := by
  rw [projectionStep] at h
  cases hd : dropCols e.df ["Date", "City"] with
  | error err =>
    rw [hd] at h
    exact absurd h (by simp [Except.map])
  | ok dres =>
    rw [hd] at h
    simp only [Except.map, Except.ok.injEq, Prod.mk.injEq] at h
    obtain ⟨he, -⟩ := h
    subst he
    exact ⟨rfl, rfl, fun hc => hc, fun hc => hc⟩

theorem c5_witness :
    projectionStep ⟨⟨[("Date", [some 1]), ("City", [some 2]),
        ("AQI", [some 3])]⟩⟩
      = .ok (⟨⟨[("Date", [some 1]), ("City", [some 2]), ("AQI", [some 3])]⟩⟩,
          ⟨[("AQI", [some 3])]⟩)
    ∧ (⟨⟨[("Date", [some 1]), ("City", [some 2]),
        ("AQI", [some 3])]⟩⟩ : Env).df
      = (⟨⟨[("Date", [some 1]), ("City", [some 2]),
        ("AQI", [some 3])]⟩⟩ : Env).df := by
  have h : projectionStep ⟨⟨[("Date", [some 1]), ("City", [some 2]),
      ("AQI", [some 3])]⟩⟩
      = .ok (⟨⟨[("Date", [some 1]), ("City", [some 2]), ("AQI", [some 3])]⟩⟩,
          ⟨[("AQI", [some 3])]⟩) := by
    rw [projectionStep, dropCols_ok _ (by simp [Dataset.names])
      (by simp [Dataset.names])]
    simp [Except.map, List.filter_cons, List.contains_cons]
  exact ⟨h, (c5_projection_no_side_effect _ _ _ h).1 ▸ rfl⟩

/-- C6: when `generated_aqi_data.csv` does not exist, `pd.read_csv` raises a
file-access error; the run dies before any plotting call (`plt.figure`,
`sns.heatmap`, `plt.show`) is executed, so no plot is produced. -/
theorem c6_missing_file_no_plot :
    runScript none = ([], .error .fileNotFound)
    ∧ Event.mkFigure ∉ (runScript none).1
    ∧ Event.drawHeatmap ∉ (runScript none).1
    ∧ Event.showPlot ∉ (runScript none).1 := by
  refine ⟨rfl, ?_, ?_, ?_⟩ <;> simp [runScript]

/-- C9: the pipeline through the correlation stage is deterministic — two
runs over the same unchanged input file content yield identical traces and
identical correlation matrices (same labels, same order, same values). -/
theorem c9_deterministic (f g : Option Dataset) (h : f = g) :
    runScript f = runScript g :=
  congrArg runScript h

theorem c9_witness :
    (some (⟨[("AQI", [some 1, some 2])]⟩ : Dataset)
      = some (⟨[("AQI", [some 1, some 2])]⟩ : Dataset))
    ∧ runScript (some ⟨[("AQI", [some 1, some 2])]⟩)
        = runScript (some ⟨[("AQI", [some 1, some 2])]⟩) :=
  ⟨rfl, c9_deterministic _ _ rfl⟩

/-- C10 (implicit): the row labels and the column labels of
`df_numeric.corr()` are both exactly the numeric projection's column names,
in the left-to-right order of the CSV header: dropping `Date` and `City`
does not reorder the remaining columns, and `corr()` uses them in order on
both axes, producing a square grid of matching size. -/
theorem c10_labels_in_header_order (d dn : Dataset)
    (hD : "Date" ∈ d.names) (hC : "City" ∈ d.names)
    (hok : dropCols d ["Date", "City"] = .ok dn) :
    (corrDF dn).rowLabels = dn.names
    ∧ (corrDF dn).colLabels = dn.names
    ∧ dn.names
      = d.names.filter (fun s => !((["Date", "City"] : List String).contains s))
    ∧ (corrDF dn).cells.length = dn.names.length
    ∧ ∀ row ∈ (corrDF dn).cells, row.length = dn.names.length := by
  rw [dropCols_ok d hD hC] at hok
  have hd' : dn = ⟨d.cols.filter
      (fun c => !((["Date", "City"] : List String).contains c.1))⟩ :=
    (Except.ok.inj hok).symm
  refine ⟨rfl, rfl, ?_, ?_, ?_⟩
  · subst hd'
    rw [Dataset.names, Dataset.names]
    exact map_fst_filter d.cols
      (fun s => !((["Date", "City"] : List String).contains s))
  · simp [corrDF, corrMatrix, Dataset.names]
  · intro row hrow
    simp only [corrDF, corrMatrix] at hrow
    obtain ⟨c, -, rfl⟩ := List.mem_map.1 hrow
    simp [Dataset.names]

theorem c10_witness :
    "Date" ∈ (Dataset.names ⟨[("Date", [some 1]), ("City", [some 2]),
        ("AQI", [some 3])]⟩)
    ∧ "City" ∈ (Dataset.names ⟨[("Date", [some 1]), ("City", [some 2]),
        ("AQI", [some 3])]⟩)
    ∧ dropCols ⟨[("Date", [some 1]), ("City", [some 2]), ("AQI", [some 3])]⟩
        ["Date", "City"] = .ok ⟨[("AQI", [some 3])]⟩
    ∧ (corrDF ⟨[("AQI", [some 3])]⟩).rowLabels
        = (Dataset.names (⟨[("AQI", [some 3])]⟩ : Dataset)) := by
  have h1 : "Date" ∈ (Dataset.names ⟨[("Date", [some 1]), ("City", [some 2]),
      ("AQI", [some 3])]⟩) := by simp [Dataset.names]
  have h2 : "City" ∈ (Dataset.names ⟨[("Date", [some 1]), ("City", [some 2]),
      ("AQI", [some 3])]⟩) := by simp [Dataset.names]
  have h4 : dropCols ⟨[("Date", [some 1]), ("City", [some 2]),
      ("AQI", [some 3])]⟩ ["Date", "City"] = .ok ⟨[("AQI", [some 3])]⟩ := by
    rw [dropCols_ok _ h1 h2]
    simp [List.filter_cons, List.contains_cons]
  exact ⟨h1, h2, h4, (c10_labels_in_header_order _ _ h1 h2 h4).1⟩

/-- C1 is false as stated: it asks for `1.0` on *every* diagonal entry of
*every* input, but a constant numeric column (here `AQI = [5, 5]`) has zero
variance, so `nancorr`'s divisor is zero and the diagonal cell is NaN, not
`1.0`. -/
theorem c1_counterexample_constant_diagonal :
    entry (corrMatrix ⟨[("AQI", [some 5, some 5])]⟩) 0 0 ≠ some 1 := by
  have h : entry (corrMatrix ⟨[("AQI", [some 5, some 5])]⟩) 0 0 = none := by
    rw [entry_corrMatrix _ 0 0 (by norm_num) (by norm_num)]
    exact pearson_const_right (c := 5) (by
      intro o ho
      simp only [Dataset.colVals] at ho
      simp at ho
      exact ho)
  rw [h]
  simp

/-- C1 (amended): for a numeric projection with `N` columns the correlation
matrix is `N`-by-`N` and symmetric (`cell (i,j) = cell (j,i)`, out-of-range
cells agreeing as `none`), and every diagonal entry whose column has
nonzero variance over its present values is `1.0`; a zero-variance column's
diagonal entry is NaN instead. -/
theorem c1_amended_square_symmetric_diagonal (d : Dataset) (N : Nat)
    (hN : d.cols.length = N) :
    (corrMatrix d).length = N
    ∧ (∀ row ∈ corrMatrix d, row.length = N)
    ∧ (∀ i j, entry (corrMatrix d) i j = entry (corrMatrix d) j i)
    ∧ (∀ i, i < N → sxx (validPairs (d.colVals i) (d.colVals i)) ≠ 0 →
        entry (corrMatrix d) i i = some 1) := by
  refine ⟨?_, ?_, ?_, ?_⟩
  · simp [corrMatrix, hN]
  · intro row hrow
    rw [corrMatrix] at hrow
    obtain ⟨c, -, rfl⟩ := List.mem_map.1 hrow
    simp [hN]
  · exact fun i j => entry_corrMatrix_comm d i j
  · intro i hi hvar
    rw [entry_corrMatrix d i i (hN ▸ hi) (hN ▸ hi)]
    exact pearson_self _ hvar

theorem c1_amended_witness :
    (⟨[("AQI", [some 1, some 2]), ("PM10", [some 3, some 7])]⟩
        : Dataset).cols.length = 2
    ∧ (corrMatrix ⟨[("AQI", [some 1, some 2]),
        ("PM10", [some 3, some 7])]⟩).length = 2
    ∧ entry (corrMatrix ⟨[("AQI", [some 1, some 2]),
        ("PM10", [some 3, some 7])]⟩) 0 0 = some 1 := by
  have hvar : sxx (validPairs
      (Dataset.colVals ⟨[("AQI", [some 1, some 2]),
        ("PM10", [some 3, some 7])]⟩ 0)
      (Dataset.colVals ⟨[("AQI", [some 1, some 2]),
        ("PM10", [some 3, some 7])]⟩ 0)) ≠ 0 := by
    rw [validPairs_self]
    simp only [Dataset.colVals]
    norm_num [sxx, ssq, mean, List.filterMap_cons]
  have hmain := c1_amended_square_symmetric_diagonal
    ⟨[("AQI", [some 1, some 2]), ("PM10", [some 3, some 7])]⟩ 2 rfl
  exact ⟨rfl, hmain.1, hmain.2.2.2 0 (by norm_num) hvar⟩

/-- C2 is false as stated: its first part promises a value in `[-1, 1]`
whenever both *columns* have nonzero variance, but `nancorr` masks rows per
pair, so with `AQI = [1, 2, 2]` and `PM2.5 = [NaN, 5, 7]` both columns have
nonzero variance while the masked `AQI` values `[2, 2]` are constant: the
cell is NaN, not a number in `[-1, 1]`. -/
theorem c2_counterexample_pairwise_nan :
    colDev ⟨[("AQI", [some 1, some 2, some 2]),
        ("PM2.5", [none, some 5, some 7])]⟩ 0 ≠ 0
    ∧ colDev ⟨[("AQI", [some 1, some 2, some 2]),
        ("PM2.5", [none, some 5, some 7])]⟩ 1 ≠ 0
    ∧ entry (corrMatrix ⟨[("AQI", [some 1, some 2, some 2]),
        ("PM2.5", [none, some 5, some 7])]⟩) 0 1 = none
    ∧ ¬∃ r : ℝ, entry (corrMatrix ⟨[("AQI", [some 1, some 2, some 2]),
        ("PM2.5", [none, some 5, some 7])]⟩) 0 1 = some r
          ∧ -1 ≤ r ∧ r ≤ 1 := by
  have hent : entry (corrMatrix ⟨[("AQI", [some 1, some 2, some 2]),
      ("PM2.5", [none, some 5, some 7])]⟩) 0 1 = none := by
    rw [entry_corrMatrix _ 0 1 (by norm_num) (by norm_num)]
    rw [pearson, if_pos]
    left
    simp only [Dataset.colVals]
    norm_num [validPairs, List.zip_cons_cons, List.filterMap_cons,
      sxx, ssq, mean]
  refine ⟨?_, ?_, hent, ?_⟩
  · simp only [colDev, Dataset.colVals]
    norm_num [ssq, mean, List.filterMap_cons]
  · simp only [colDev, Dataset.colVals]
    norm_num [ssq, mean, List.filterMap_cons]
  · rw [hent]
    simp

/-- C2 (amended): every cell of the correlation matrix that is a number
lies in `[-1, 1]` — a cell is NaN exactly when a column restricted to the
pairwise-complete rows of the pair has zero variance — and a column that is
constant across all rows yields NaN against every other column. -/
theorem c2_amended_bounds_and_const_nan (d : Dataset) :
    (∀ i j r, entry (corrMatrix d) i j = some r → -1 ≤ r ∧ r ≤ 1)
    ∧ (∀ j c, j < d.cols.length → (∀ o ∈ d.colVals j, o = some c) →
        ∀ i, i < d.cols.length → i ≠ j →
          entry (corrMatrix d) i j = none
            ∧ entry (corrMatrix d) j i = none) := by
  constructor
  · intro i j r hr
    rcases lt_or_ge i d.cols.length with hi | hi
    · rcases lt_or_ge j d.cols.length with hj | hj
      · rw [entry_corrMatrix d i j hi hj] at hr
        exact pearson_mem_Icc hr
      · rw [entry_corrMatrix_of_ge (Or.inr hj)] at hr
        exact absurd hr (by simp)
    · rw [entry_corrMatrix_of_ge (Or.inl hi)] at hr
      exact absurd hr (by simp)
  · intro j c hj hconst i hi _
    rw [entry_corrMatrix d i j hi hj, entry_corrMatrix d j i hj hi]
    exact ⟨pearson_const_right hconst, pearson_const_left hconst⟩

theorem c2_amended_witness :
    ((-1 : ℝ) ≤ 1 ∧ (1 : ℝ) ≤ 1)
    ∧ entry (corrMatrix ⟨[("AQI", [some 1, some 2]),
        ("PM10", [some 3, some 3])]⟩) 0 1 = none
    ∧ entry (corrMatrix ⟨[("AQI", [some 1, some 2]),
        ("PM10", [some 3, some 3])]⟩) 1 0 = none := by
  have hdiag : entry (corrMatrix ⟨[("AQI", [some 1, some 2]),
      ("PM10", [some 3, some 3])]⟩) 0 0 = some 1 := by
    rw [entry_corrMatrix _ 0 0 (by norm_num) (by norm_num)]
    apply pearson_self
    rw [validPairs_self]
    simp only [Dataset.colVals]
    norm_num [sxx, ssq, mean, List.filterMap_cons]
  have hconst : ∀ o ∈ Dataset.colVals ⟨[("AQI", [some 1, some 2]),
      ("PM10", [some 3, some 3])]⟩ 1, o = some 3 := by
    intro o ho
    simp only [Dataset.colVals] at ho
    simp at ho
    exact ho
  have hc := (c2_amended_bounds_and_const_nan
    ⟨[("AQI", [some 1, some 2]), ("PM10", [some 3, some 3])]⟩).2
    1 3 (by norm_num) hconst 0 (by norm_num) (by norm_num)
  exact ⟨(c2_amended_bounds_and_const_nan
    ⟨[("AQI", [some 1, some 2]), ("PM10", [some 3, some 3])]⟩).1
      0 0 1 hdiag, hc.1, hc.2⟩

/-- C7 is false as stated: with `AQI = [5, 5, 5]` and `PM2.5 = 2 × AQI`
the two columns are perfectly linearly related with positive slope over 3
rows, yet both are constant, so the cell is NaN rather than `1.0`. -/
theorem c7_counterexample_constant_linear :
    (Dataset.colVals ⟨[("AQI", [some 5, some 5, some 5]),
        ("PM2.5", [some 10, some 10, some 10])]⟩ 1)
      = (Dataset.colVals ⟨[("AQI", [some 5, some 5, some 5]),
          ("PM2.5", [some 10, some 10, some 10])]⟩ 0).map
            (Option.map (fun q => 2 * q))
    ∧ entry (corrMatrix ⟨[("AQI", [some 5, some 5, some 5]),
        ("PM2.5", [some 10, some 10, some 10])]⟩) 0 1 ≠ some 1 := by
  constructor
  · simp only [Dataset.colVals]
    norm_num
  · have h : entry (corrMatrix ⟨[("AQI", [some 5, some 5, some 5]),
        ("PM2.5", [some 10, some 10, some 10])]⟩) 0 1 = none := by
      rw [entry_corrMatrix _ 0 1 (by norm_num) (by norm_num)]
      exact pearson_const_right (c := 10) (by
        intro o ho
        simp only [Dataset.colVals] at ho
        simp at ho
        exact ho)
    rw [h]
    simp

/-- C7 (amended): whenever column `j` is a positive affine image
`y = a·x + b` (`a > 0`) of column `i` across all rows, all values present,
and column `i` is not constant (nonzero variance), the matrix cell `(i, j)`
is exactly `1.0`. -/
theorem c7_amended_perfect_linear_corr_one (d : Dataset) (i j : Nat)
    (u : List ℚ) (a b : ℚ)
    (hi : i < d.cols.length) (hj : j < d.cols.length)
    (hxi : d.colVals i = u.map some)
    (hyj : d.colVals j = u.map (fun x => some (a * x + b)))
    (ha : 0 < a) (hvar : ssq u ≠ 0) :
    entry (corrMatrix d) i j = some 1 := by
  rw [entry_corrMatrix d i j hi hj, hxi, hyj]
  exact pearson_linear u a b ha hvar

theorem c7_amended_witness :
    (0 : Nat) < (⟨[("AQI", [some 1, some 2, some 3]),
        ("PM2.5", [some 2, some 4, some 6])]⟩ : Dataset).cols.length
    ∧ (Dataset.colVals ⟨[("AQI", [some 1, some 2, some 3]),
        ("PM2.5", [some 2, some 4, some 6])]⟩ 0)
      = [(1 : ℚ), 2, 3].map some
    ∧ (Dataset.colVals ⟨[("AQI", [some 1, some 2, some 3]),
        ("PM2.5", [some 2, some 4, some 6])]⟩ 1)
      = [(1 : ℚ), 2, 3].map (fun x => some (2 * x + 0))
    ∧ (0 : ℚ) < 2 ∧ ssq [(1 : ℚ), 2, 3] ≠ 0
    ∧ entry (corrMatrix ⟨[("AQI", [some 1, some 2, some 3]),
        ("PM2.5", [some 2, some 4, some 6])]⟩) 0 1 = some 1 := by
  have h0 : (Dataset.colVals ⟨[("AQI", [some 1, some 2, some 3]),
      ("PM2.5", [some 2, some 4, some 6])]⟩ 0)
      = [(1 : ℚ), 2, 3].map some := by
    simp only [Dataset.colVals]
    norm_num
  have h1 : (Dataset.colVals ⟨[("AQI", [some 1, some 2, some 3]),
      ("PM2.5", [some 2, some 4, some 6])]⟩ 1)
      = [(1 : ℚ), 2, 3].map (fun x => some (2 * x + 0)) := by
    simp only [Dataset.colVals]
    norm_num
  have hv : ssq [(1 : ℚ), 2, 3] ≠ 0 := by norm_num [ssq, mean]
  exact ⟨by norm_num, h0, h1, by norm_num, hv,
    c7_amended_perfect_linear_corr_one _ 0 1 [(1 : ℚ), 2, 3] 2 0
      (by norm_num) (by norm_num) h0 h1 (by norm_num) hv⟩

/-- C8: the Pearson cell of a column pair is a function of, exactly, the
rows where both columns are present: any two column pairs with the same
pairwise-complete rows get the same coefficient, and each cell equals the
coefficient of the pair restricted to its pairwise-complete sub-table. -/
theorem c8_pairwise_complete (xs ys xs' ys' : List (Option ℚ))
    (h : validPairs xs ys = validPairs xs' ys') :
    pearson xs ys = pearson xs' ys'
    ∧ pearson xs ys
      = pearson ((validPairs xs ys).map (fun q => some q.1))
          ((validPairs xs ys).map (fun q => some q.2)) := by
  refine ⟨pearson_eq_of_validPairs_eq h, ?_⟩
  exact pearson_eq_of_validPairs_eq (validPairs_restrict _).symm

theorem c8_witness :
    validPairs [some 1, none] [some 2, some 3]
      = validPairs [some 1] [some 2]
    ∧ pearson [some 1, none] [some 2, some 3]
      = pearson [some 1] [some 2] := by
  have h : validPairs [some (1 : ℚ), none] [some 2, some 3]
      = validPairs [some 1] [some 2] := by
    simp [validPairs, List.zip_cons_cons, List.filterMap_cons]
  exact ⟨h, (c8_pairwise_complete _ _ _ _ h).1⟩

end AqiHeatmap
